import Mathlib

/-!
Verification of the marcup metadata-to-MARC derivation engine
(`src/marcup/__main__.py`).

The executable Python is embedded shallowly: a metadata row (a CSV
`DictReader` dictionary) becomes an association list from column name to
cell value, the record classes' methods become Lean functions, and every
place the Python can raise (`metadata[0]` on an empty list, `row["col"]`
on a missing key, `lang[0]` on an empty list) is an `Option` failure.
`IslandoraRecord` inherits from the first `MarcupRecord` class in the
file (the second class of the same name, defined later, shadows the name
only for direct callers and is dead code for the `IslandoraRecord` path),
so the embedded methods are those of the first class plus the
`IslandoraRecord` overrides.

String primitives (`split`, `partition`, substring membership, strip,
lower) are embedded by structurally recursive functions over the
character list of the string, so that every definition evaluates by
kernel reduction on concrete inputs.

Python's `sorted` is a stable sort; it is embedded with
`List.insertionSort`, which inserts each element (scanning the input from
the right) in front of the first element it is related to, and is
therefore likewise stable: elements equal under the sort key keep their
relative input order.  Applied to the insertion-ordered association list
that embeds the counting dictionary (Python dictionaries preserve
insertion order), this reproduces `sorted(d.items(), key=count,
reverse=True)` exactly.
-/

namespace Marcup

/-- A metadata row: a mapping from column name to cell value, as produced
by `csv.DictReader`.  Embedded as an association list; Python's
`row[k]` is `Row.get?` (failing like `KeyError`) and `row.get(k, d)` is
`Row.getD`. -/
def Row : Type := List (String × String)

/-- `row[k]`: `none` embeds a `KeyError`. -/
def Row.get? (r : Row) (k : String) : Option String :=
  List.lookup k r

/-- `row.get(k, d)`. -/
def Row.getD (r : Row) (k d : String) : String :=
  (List.lookup k r).getD d

/-! ### String primitives -/

/-- Break a character list at the first occurrence of `pat`: `some
(before, after)` when `pat` occurs, `none` otherwise. -/
def breakOnAux (pat : List Char) : List Char → Option (List Char × List Char)
  | [] => if pat.isEmpty then some ([], []) else none
  | c :: cs =>
    if pat.isPrefixOf (c :: cs) then some ([], (c :: cs).drop pat.length)
    else
      match breakOnAux pat cs with
      | some (pre, post) => some (c :: pre, post)
      | none => none

/-- Python's substring test `pat in s` (for the non-empty literal
patterns the code uses). -/
def strContains (s pat : String) : Bool :=
  (breakOnAux pat.data s.data).isSome

/-- Python `str.partition(pat)`, with the middle component replaced by a
found/not-found flag: `some (before, after)` when `pat` occurs in `s`,
else `none`. -/
def pyPartition (s pat : String) : Option (String × String) :=
  match breakOnAux pat.data s.data with
  | some (pre, post) => some (⟨pre⟩, ⟨post⟩)
  | none => none

/-- Python `str.split(sep)` for a one-character separator; `acc` holds
the current piece, reversed. -/
def splitOnCharAux (sep : Char) : List Char → List Char → List String
  | [], acc => [⟨acc.reverse⟩]
  | c :: cs, acc =>
    if c = sep then (⟨acc.reverse⟩ : String) :: splitOnCharAux sep cs []
    else splitOnCharAux sep cs (c :: acc)

/-- Python `str.split(sep)` for a one-character separator. -/
def splitChar (sep : Char) (s : String) : List String :=
  splitOnCharAux sep s.data []

/-- Python `str.lower()` (ASCII, as in the code's inputs). -/
def pyLower (s : String) : String :=
  ⟨s.data.map Char.toLower⟩

/-- Python `str.strip()` with no argument: remove leading and trailing
whitespace. -/
def pyStrip (s : String) : String :=
  ⟨((s.data.dropWhile Char.isWhitespace).reverse.dropWhile Char.isWhitespace).reverse⟩

/-- Python `sep.join(xs)`. -/
def joinSep (sep : String) : List String → String
  | [] => ""
  | x :: xs => xs.foldl (fun a b => a ++ sep ++ b) x

/-- Python's string slice `s[0:4]`. -/
def take4 (s : String) : String :=
  ⟨s.data.take 4⟩

/-- Lexicographic (code-point) order on character lists, Python's string
comparison. -/
def charListLe : List Char → List Char → Bool
  | [], _ => true
  | _ :: _, [] => false
  | a :: as, b :: bs => if a = b then charListLe as bs else decide (a < b)

/-- Python's `s <= t` on strings. -/
def strLe (a b : String) : Bool :=
  charListLe a.data b.data

/-- `strLe` as a relation, the sort order of Python's `sorted` over
strings. -/
def strLeRel (a b : String) : Prop := strLe a b = true

instance : DecidableRel strLeRel := fun a b =>
  inferInstanceAs (Decidable (strLe a b = true))

/-! ### The term aggregator -/

/-- `MarcupRecord._update_term_counting_dict`: bump the count of `term`
if it is already a key, otherwise append it with count 1 (Python
dictionaries keep insertion order). -/
def updateTermCountingDict {α : Type} [DecidableEq α] :
    List (α × Nat) → α → List (α × Nat)
  | [], term => [(term, 1)]
  | (k, c) :: rest, term =>
    if k = term then (k, c + 1) :: rest
    else (k, c) :: updateTermCountingDict rest term

/-- The terms contributed by one cell in `MarcupRecord._get_terms`: an
empty cell contributes nothing, a cell containing the separator `;` is
split on it (each piece counted, empty pieces included), any other cell
is one term. -/
def cellTerms (t : String) : List String :=
  if t = "" then []
  else if t.data.contains ';' then splitChar ';' t
  else [t]

/-- Count a list of items into the dictionary, in order. -/
def countInto {α : Type} [DecidableEq α]
    (counter : List (α × Nat)) (items : List α) : List (α × Nat) :=
  items.foldl updateTermCountingDict counter

/-- The counting loop of `MarcupRecord._get_terms`: columns are scanned
in the given order and, per column, rows in order; a missing column reads
as the empty string (`row.get(column, "")`). -/
def getTermCounts (metadata : List Row) (cols : List String) :
    List (String × Nat) :=
  cols.foldl
    (fun acc col =>
      metadata.foldl (fun acc row => countInto acc (cellTerms (row.getD col ""))) acc)
    []

/-- Python's stable `sorted(counter.items(), key=count, reverse=True)`:
descending by count, ties kept in insertion order. -/
def sortByCountDesc {α : Type} (l : List (α × Nat)) : List (α × Nat) :=
  l.insertionSort (fun a b => b.2 ≤ a.2)

/-- `MarcupRecord._get_terms`: frequency-ranked list of the distinct
terms found in the given columns. -/
def getTerms (metadata : List Row) (cols : List String) : List String :=
  (sortByCountDesc (getTermCounts metadata cols)).map Prod.fst

/-- `itertools.zip_longest(xs, ys, fillvalue="")` for string lists. -/
def zipLongest : List String → List String → List (String × String)
  | [], ys => ys.map (fun y => ("", y))
  | x :: xs, ys =>
    match ys with
    | [] => (x, "") :: zipLongest xs []
    | y :: ys2 => (x, y) :: zipLongest xs ys2

/-- The (term, uri) pairs contributed by one cell pair in
`IslandoraRecord._get_terms_and_uris`: an empty term cell contributes
nothing; a term cell containing `;` is split, the uri cell is split the
same way, and the two are `zip_longest`-paired with `""` filling either
side; otherwise the whole cells form one pair. -/
def cellPairs (t u : String) : List (String × String) :=
  if t = "" then []
  else if t.data.contains ';' then zipLongest (splitChar ';' t) (splitChar ';' u)
  else [(t, u)]

/-- The counting loop of `IslandoraRecord._get_terms_and_uris`; note
both the term cell and the uri cell default to a single space `" "` when
the column is missing (`row.get(column, " ")` and
`row.get(f"{column}_valueURI", " ")`). -/
def getTermAndUriCounts (metadata : List Row) (cols : List String) :
    List ((String × String) × Nat) :=
  cols.foldl
    (fun acc col =>
      metadata.foldl
        (fun acc row =>
          countInto acc
            (cellPairs (row.getD col " ") (row.getD (col ++ "_valueURI") " ")))
        acc)
    []

/-- `IslandoraRecord._get_terms_and_uris`: like `_get_terms` but over
(term, uri) pairs. -/
def getTermsAndUris (metadata : List Row) (cols : List String) :
    List (String × String) :=
  (sortByCountDesc (getTermAndUriCounts metadata cols)).map Prod.fst

/-! ### Title-case transform (`MarcupRecord.title_case`) -/

/-- The stopword set of `MarcupRecord.title_case` (already in the
title-cased spelling the code compares against; note the set does not
contain `"The"`). -/
def dontCapitalize : List String :=
  ["A", "And", "As", "At", "But", "By", "Down", "For", "From", "If", "In",
   "Into", "Like", "Near", "Nor", "Of", "Off", "On", "Once", "Onto", "Or",
   "Over", "Past", "So", "Than", "That", "To", "Upon", "When", "With", "Yet"]

/-- Python `str.title()` over a character list: an alphabetic character is
uppercased when the previous character is not alphabetic and lowercased
otherwise; any other character resets the word boundary. -/
def pyTitleChars : List Char → Bool → List Char
  | [], _ => []
  | c :: cs, prevCased =>
    if c.isAlpha then
      (if prevCased then c.toLower else c.toUpper) :: pyTitleChars cs true
    else
      c :: pyTitleChars cs false

/-- Python `str.title()`. -/
def pyTitle (s : String) : String :=
  ⟨pyTitleChars s.data false⟩

/-- Python `str.split()` (split on whitespace runs, no empty pieces);
`acc` holds the characters of the current word, reversed. -/
def splitWsChars : List Char → List Char → List String
  | [], acc => if acc.isEmpty then [] else [⟨acc.reverse⟩]
  | c :: cs, acc =>
    if c.isWhitespace then
      if acc.isEmpty then splitWsChars cs []
      else (⟨acc.reverse⟩ : String) :: splitWsChars cs []
    else splitWsChars cs (c :: acc)

/-- Python `str.split()`. -/
def splitWs (s : String) : List String :=
  splitWsChars s.data []

/-- The apostrophe character, U+0027. -/
def apos : Char := Char.ofNat 39

/-- The apostrophe as a one-character string. -/
def aposStr : String := String.mk [apos]

/-- The contraction fix of `title_case`: `word.split("'")`, and when that
yields more than one part, rejoin only the first part, an apostrophe and
the lowercased second part (any further parts are dropped by the code). -/
def apostropheFix (w : String) : String :=
  match splitChar apos w with
  | p0 :: p1 :: _ => p0 ++ aposStr ++ pyLower p1
  | _ => w

/-- One word of `title_case`: apply the contraction fix, then lowercase a
stopword unless it is the first or last word. -/
def titleCaseWord (n i : Nat) (w : String) : String :=
  let w' := apostropheFix w
  if 0 < i ∧ i < n - 1 ∧ w' ∈ dontCapitalize then pyLower w' else w'

/-- Apply `f` to every element together with its position, counting from
`i`. -/
def mapWithIndex (f : Nat → String → String) : Nat → List String → List String
  | _, [] => []
  | i, w :: ws => f i w :: mapWithIndex f (i + 1) ws

/-- `MarcupRecord.title_case`. -/
def title_case (title : String) : String :=
  let capped := splitWs (pyTitle title)
  joinSep " " (mapWithIndex (titleCaseWord capped.length) 0 capped)

/-! ### Field specifications and per-field builders -/

/-- A MARC field specification: either a control field (tag and data) or
a data field (tag, two indicator characters, ordered subfield
code/value pairs).  (The fallback second indicator `4` of
`_add_terms_multiple_vocabularies` is carried as the string `"4"`.) -/
inductive Field where
  | control (tag : String) (fieldData : String)
  | general (tag ind1 ind2 : String) (subfields : List (String × String))
deriving DecidableEq, Repr

/-- The tag of a field. -/
def Field.tag : Field → String
  | .control t _ => t
  | .general t _ _ _ => t

/-- `MarcupRecord._add_terms` (the class `IslandoraRecord` inherits
from): one field per term, skipping terms that are exactly empty. -/
def addTerms (tag ind1 ind2 : String) (terms : List String)
    (extra : List (String × String)) : List Field :=
  terms.flatMap (fun t =>
    if t ≠ "" then [Field.general tag ind1 ind2 (("a", t) :: extra)] else [])

/-- `MarcupRecord._add_terms_multiple_vocabularies` (inherited variant,
which skips terms whose stripped text is empty): classify each
(term, uri) pair by its uri and emit one field, in order. -/
def addTermsMultipleVocabularies (tag : String)
    (termsUris : List (String × String)) (firstInd fallback2nd : String) :
    List Field :=
  termsUris.flatMap (fun tu =>
    if pyStrip tu.1 ≠ "" then
      if strContains tu.2 "id.loc.gov" then
        [Field.general tag firstInd "0" [("a", tu.1)]]
      else if strContains tu.2 "id.worldcat.org/fast" then
        [Field.general tag firstInd "7" [("a", tu.1), ("2", "fast")]]
      else if tu.2 = "" then
        [Field.general tag firstInd "7" [("a", tu.1), ("2", "local")]]
      else
        [Field.general tag firstInd fallback2nd [("a", tu.1)]]
    else [])

/-- `IslandoraRecord.get_geographic_terms`: the avian variant reads the
`geographic_subject_geonames` column, the standard variant the
`geographic_subject_fast` and `geographic_subject_local` columns. -/
def getGeographicTerms (avian : Bool) (metadata : List Row) : List String :=
  if avian then getTerms metadata ["geographic_subject_geonames"]
  else getTerms metadata ["geographic_subject_fast", "geographic_subject_local"]

/-- `MarcupRecord.add_geographic_area_codes`: look up each geographic
term in the area-code table, and append the table's `"Iowa"` code when
any term contains the substring `"Iowa"`; emit the `043` field only when
some code was collected.  The table itself is modelled from the spec: the
module `marcup/area_codes.py` is not under `src/`, and the spec describes
it as an injected read-only mapping from place name to area-code string
(assumed, as in the spec's own example table, to contain the key
`"Iowa"`, which the code reads without a fallback). -/
def addGeographicAreaCodes (areaCodes : List (String × String))
    (geoTerms : List String) : List Field :=
  let codes := geoTerms.filterMap (fun t => List.lookup t areaCodes)
  let inIowa := geoTerms.any (fun t => strContains t "Iowa")
  let codes := if inIowa then codes ++ [(List.lookup "Iowa" areaCodes).getD ""] else codes
  if codes ≠ [] then [Field.general "043" " " " " (codes.map (fun c => ("a", c)))]
  else []

/-- `MarcupRecord.add_preferred_citation` (inherited variant, which
title-cases the physical-collection names): one `524` field joining the
truncated collection/call-number pairs into the citation sentence. -/
def addPreferredCitation (metadata : List Row) (maxN : Nat)
    (digitalCollection : String) : List Field :=
  let ocs := (getTerms metadata ["archival_collection"]).take maxN
  let onums := (getTerms metadata ["archival_call_number"]).take maxN
  let originals :=
    joinSep " " ((ocs.zip onums).map (fun c => title_case c.1 ++ ", " ++ c.2))
  [Field.general "524" " " " "
    [("a", digitalCollection ++ ", " ++ originals ++
      ", Special Collections and University Archives, Iowa State University Library.")]]

/-- `MarcupRecord.add_finding_aid_links` (inherited variant): one `856`
field per zipped (finding aid, ark) pair, both lists truncated, the
finding-aid label title-cased. -/
def addFindingAidLinks (metadata : List Row) (maxN : Nat) : List Field :=
  let fas := (getTerms metadata ["archival_collection"]).take maxN
  let arks := (getTerms metadata ["finding_aid_ark"]).take maxN
  (fas.zip arks).map (fun c =>
    Field.general "856" "4" "2"
      [("3", "Finding aid for " ++ title_case c.1), ("u", c.2)])

/-! ### Derived-value calculators (`IslandoraRecord`) -/

/-- The row scan of `IslandoraRecord.get_disclaimer`: return the first
non-empty `disclaimer` cell; a row without the column is a `KeyError`. -/
def scanDisclaimer : List Row → Option String
  | [] => some ""
  | r :: rs => do
    let d ← r.get? "disclaimer"
    if d ≠ "" then pure d else scanDisclaimer rs

/-- `IslandoraRecord.get_disclaimer`: when the first row has no
`disclaimer` column the result is `""`; otherwise every row is scanned
(raising on a row without the column) for the first non-empty value. -/
def getDisclaimer (metadata : List Row) : Option String := do
  let r0 ← metadata.head?
  match r0.get? "disclaimer" with
  | none => pure ""
  | some _ => scanDisclaimer metadata

/-- The `date_original` cells of all rows, failing on a row without the
column (`md["date_original"]` in the comprehension's condition). -/
def getYearCells : List Row → Option (List String)
  | [] => some []
  | r :: rs => do
    let c ← r.get? "date_original"
    let cs ← getYearCells rs
    pure (c :: cs)

/-- `IslandoraRecord.get_years`: the first four characters of every
non-empty `date_original` cell, sorted lexicographically (Python's
stable `sorted` over strings). -/
def getYears (metadata : List Row) : Option (List String) := do
  let cells ← getYearCells metadata
  pure (((cells.filter (· ≠ "")).map take4).insertionSort strLeRel)

/-- `IslandoraRecord.get_date_range` as a function of the collected
years: more than one year (with multiplicity) gives the first-to-last
range, exactly one gives that year, none the empty string. -/
def getDateRange : List String → String
  | [] => ""
  | [y] => y
  | y :: y2 :: ys => y ++ "-" ++ (y2 :: ys).getLast (List.cons_ne_nil y2 ys) ++ "."

/-- `IslandoraRecord.get_collection_descriptions`: partition the first
row's description on the literal `"The collection"`; when a non-empty
part follows the marker, the summary prepends the first row's title
(read with a possible `KeyError`). -/
def getCollectionDescriptions (metadata : List Row) :
    Option (String × String) := do
  let r0 ← metadata.head?
  let desc ← r0.get? "description"
  match pyPartition desc "The collection" with
  | none => pure (desc, "")
  | some (bioHist, after) =>
    if after = "" then pure (bioHist, "")
    else do
      let title ← r0.get? "title"
      pure (bioHist, title ++ " " ++ after)

/-- The `ark`-counting loop of `IslandoraRecord.get_object_count` over
the non-header rows, failing on a row without the column. -/
def countArks : List Row → Option Nat
  | [] => some 0
  | r :: rs => do
    let a ← r.get? "ark"
    let n ← countArks rs
    pure (if a ≠ "" then n + 1 else n)

/-- `IslandoraRecord.get_object_count`: rows after the first whose `ark`
cell is non-empty. -/
def getObjectCount (metadata : List Row) : Option Nat :=
  countArks (metadata.drop 1)

/-- `IslandoraRecord.get_title`: split the first row's title on `:`; two
parts give a main-title/subtitle subfield pair, anything else a single
subfield ending in a comma. -/
def getTitle (metadata : List Row) : Option (List (String × String)) := do
  let r0 ← metadata.head?
  let t ← r0.get? "title"
  match splitChar ':' t with
  | [a, b] => pure [("a", a ++ " : "), ("b", b ++ ", ")]
  | parts => pure [("a", parts.headD "" ++ ", ")]

/-- `IslandoraRecord.generate_008_field` and the `041` side effect: when
more than one language was aggregated a repeatable `041` field is
emitted; reading `lang[0]` fails on an empty language list.  The
current-date stamp `date.today().strftime` is injected as `today`. -/
def generate008 (today : String) (langs : List String) :
    Option (String × List Field) := do
  let l0 ← langs.head?
  let f041 :=
    if langs.length > 1 then
      [Field.general "041" " " " " (langs.map (fun l => ("a", l)))]
    else []
  pure (today ++ "         iau     o           " ++ l0 ++ " d", f041)

/-! ### The record builder (`IslandoraRecord.__init__`)

`IslandoraRecord.__init__` accepts only `metadata` and `max`; it calls
`super().__init__(metadata)` without forwarding any variant flag, so the
inherited `avian` attribute is always `False` (and passing `avian=True`
to the constructor, as `main()` does for the avian command line flag, is
a `TypeError`).  The builder below therefore has no avian parameter and
reads the geographic columns of the standard variant.  Leader bytes are
owned by the external serializer and are not modelled; the result is the
ordered field list. -/

/-- `IslandoraRecord.__init__`: derive every value in source order, with
`none` for any of the constructor's uncaught exceptions, and return the
ordered field list. -/
def buildRecord (today : String) (areaCodes : List (String × String))
    (maxN : Nat) (metadata : List Row) : Option (List Field) := do
  let disclaimer ← getDisclaimer metadata
  let r0 ← metadata.head?
  let digitalCollection ← r0.get? "digital_collection"
  let physicalCollections := getTerms metadata ["archival_collection"]
  let physicalCallNumbers := getTerms metadata ["archival_call_number"]
  let years ← getYears metadata
  let geoTerms := getGeographicTerms false metadata
  let bioHistSummary ← getCollectionDescriptions metadata
  let langs := getTerms metadata ["language"]
  let data008f041 ← generate008 today langs
  let f040 := Field.general "040" " " " "
    [("a", "IWA"), ("b", "eng"), ("e", "dacs"), ("e", "rda"), ("c", "IWA")]
  let f043 := addGeographicAreaCodes areaCodes geoTerms
  let titleSubs ← getTitle metadata
  let f245 := Field.general "245" " " " " (titleSubs ++ [("f", getDateRange years)])
  let f264 := Field.general "264" " " "1"
    [("a", "Ames, Iowa :"), ("b", "Iowa State University Library,")]
  let objectCount ← getObjectCount metadata
  let f300 := Field.general "300" " " " "
    [("a", "1 online resource (" ++ toString objectCount ++ " digital objects)")]
  let f545 := Field.general "545" " " " " [("a", bioHistSummary.1)]
  let f520 := Field.general "520" "2" " " [("a", bioHistSummary.2)]
  let f506 := Field.general "506" " " " "
    [("a", "For copyright and re-use status, please consult the individual objects record.")]
  let f524 := addPreferredCitation metadata maxN digitalCollection
  let f534 := (physicalCollections.zip physicalCallNumbers).map (fun c =>
    Field.general "534" " " " "
      [("p", "Originals can be found in:"), ("t", title_case c.1), ("o", c.2),
       ("l", "Special Collections and University Archives, Iowa State University Library.")])
  let f500 := if disclaimer ≠ "" then [Field.general "500" " " " " [("a", disclaimer)]] else []
  let f600 := addTermsMultipleVocabularies "600"
    ((getTermsAndUris metadata ["personal_name_subject"]).take maxN) "1" "4"
  let f610 := addTermsMultipleVocabularies "610"
    ((getTermsAndUris metadata ["corporate_name_subject"]).take maxN) "2" "4"
  let f650 := addTerms "650" " " "7"
    ((getTerms metadata ["topical_subject_fast", "topical_subject_local"]).take maxN)
    [("2", "fast")]
  let f651 := addTerms "651" " " "7" ((getGeographicTerms false metadata).take maxN)
    [("2", "fast")]
  let f655 := addTerms "655" " " "7" (getTerms metadata ["aat_genre"]) [("2", "aat")]
  let f700 := addTerms "700" "1" " "
    ((getTerms metadata
      ["personal_creator", "interviewee", "interviewer", "personal_contributor"]).take maxN)
    []
  let f710 := addTerms "710" "2" " "
    ((getTerms metadata ["corporate_creator", "corporate_contributor"]).take maxN) []
  let f710fixed := Field.general "710" "2" " "
    [("a", "Iowa State University."), ("b", "Library"), ("b", "Digital Collections.")]
  let collTitle ← r0.get? "title"
  let collArk ← r0.get? "ark"
  let f856coll := Field.general "856" "4" "0" [("3", collTitle), ("u", collArk)]
  let f856fa := addFindingAidLinks metadata maxN
  pure (data008f041.2 ++ [Field.control "008" data008f041.1, f040] ++ f043 ++
    [f245, f264, f300, f545, f520, f506] ++ f524 ++ f534 ++ f500 ++
    f600 ++ f610 ++ f650 ++ f651 ++ f655 ++ f700 ++ f710 ++
    [f710fixed, f856coll] ++ f856fa)

/-- Fields of a given tag in a field list. -/
def countTag (tag : String) (fields : List Field) : Nat :=
  (fields.filter (fun f => f.tag = tag)).length

/-- Fields of a given tag, in order. -/
def fieldsWithTag (tag : String) (fields : List Field) : List Field :=
  fields.filter (fun f => f.tag = tag)

/-! ### Specification-level notions used by the theorems -/

/-- The stream of individual term pieces the aggregator scans, in scan
order: columns in the given order, rows in order per column, each cell
split into its pieces. -/
def allPieces (metadata : List Row) (cols : List String) : List String :=
  cols.flatMap (fun col =>
    metadata.flatMap (fun row => cellTerms (row.getD col "")))

/-- The stream of (term, uri) pairs scanned by the paired aggregator, in
scan order. -/
def allCellPairs (metadata : List Row) (cols : List String) :
    List (String × String) :=
  cols.flatMap (fun col =>
    metadata.flatMap (fun row =>
      cellPairs (row.getD col " ") (row.getD (col ++ "_valueURI") " ")))

/-- The elements of `l` not in `seen`, keeping the first occurrence of
each in encounter order. -/
def firstSeenAux {α : Type} [DecidableEq α] (seen : List α) : List α → List α
  | [] => []
  | a :: l =>
    if a ∈ seen then firstSeenAux seen l
    else a :: firstSeenAux (a :: seen) l

/-- The distinct elements of `l` in the order they are first
encountered. -/
def firstSeen {α : Type} [DecidableEq α] (l : List α) : List α :=
  firstSeenAux [] l

/-- The count stored under the first occurrence of key `a`. -/
def countOfKey {α : Type} [DecidableEq α] : List (α × Nat) → α → Nat
  | [], _ => 0
  | (k, c) :: rest, a => if k = a then c else countOfKey rest a

/-! ### Counter lemmas: the counting dictionary stores, under each
distinct piece in first-encounter order, the number of its occurrences
in the scanned stream. -/

theorem countOfKey_updateTermCountingDict {α : Type} [DecidableEq α]
    (init : List (α × Nat)) (x a : α) :
    countOfKey (updateTermCountingDict init x) a =
      countOfKey init a + (if x = a then 1 else 0) := by
  induction init with
  | nil =>
    by_cases h : x = a <;> simp [updateTermCountingDict, countOfKey, h]
  | cons p rest ih =>
    obtain ⟨k, c⟩ := p
    simp only [updateTermCountingDict]
    by_cases hkx : k = x
    · rw [if_pos hkx]
      simp only [countOfKey]
      by_cases hka : k = a
      · rw [if_pos hka, if_pos hka, if_pos (hkx.symm.trans hka)]
      · have hxa : ¬ x = a := fun h => hka (hkx.trans h)
        rw [if_neg hka, if_neg hka, if_neg hxa]
        omega
    · rw [if_neg hkx]
      simp only [countOfKey]
      by_cases hka : k = a
      · have hxa : ¬ x = a := fun h => hkx (hka.trans h.symm)
        rw [if_pos hka, if_pos hka, if_neg hxa]
        omega
      · rw [if_neg hka, if_neg hka, ih]

/-- The number of occurrences of `a` in `l`. -/
def occCount {α : Type} [DecidableEq α] (a : α) : List α → Nat
  | [] => 0
  | b :: l => (if b = a then 1 else 0) + occCount a l

theorem countOfKey_countInto {α : Type} [DecidableEq α]
    (l : List α) (init : List (α × Nat)) (a : α) :
    countOfKey (countInto init l) a = countOfKey init a + occCount a l := by
  induction l generalizing init with
  | nil => simp [countInto, occCount]
  | cons x xs ih =>
    have hstep : countInto init (x :: xs) = countInto (updateTermCountingDict init x) xs := by
      simp [countInto]
    rw [hstep, ih, countOfKey_updateTermCountingDict, occCount]
    omega

theorem map_fst_updateTermCountingDict_of_mem {α : Type} [DecidableEq α]
    (init : List (α × Nat)) (x : α) (hx : x ∈ init.map Prod.fst) :
    (updateTermCountingDict init x).map Prod.fst = init.map Prod.fst := by
  induction init with
  | nil => simp at hx
  | cons p rest ih =>
    obtain ⟨k, c⟩ := p
    by_cases hkx : k = x
    · subst hkx
      simp [updateTermCountingDict]
    · have hxk : ¬ x = k := fun h => hkx h.symm
      have hx' : x ∈ rest.map Prod.fst := by
        rcases (by simpa using hx : x = k ∨ x ∈ rest.map Prod.fst) with h | h
        · exact absurd h hxk
        · exact h
      simp [updateTermCountingDict, hkx, ih hx']

theorem map_fst_updateTermCountingDict_of_not_mem {α : Type} [DecidableEq α]
    (init : List (α × Nat)) (x : α) (hx : x ∉ init.map Prod.fst) :
    (updateTermCountingDict init x).map Prod.fst = init.map Prod.fst ++ [x] := by
  induction init with
  | nil => simp [updateTermCountingDict]
  | cons p rest ih =>
    obtain ⟨k, c⟩ := p
    have hkx : ¬ k = x := by
      intro h
      exact hx (by simp [h])
    have hx' : x ∉ rest.map Prod.fst := fun h => hx (by simp [h])
    simp [updateTermCountingDict, hkx, ih hx']

theorem firstSeenAux_congr {α : Type} [DecidableEq α]
    (l : List α) (s₁ s₂ : List α) (h : ∀ x, x ∈ s₁ ↔ x ∈ s₂) :
    firstSeenAux s₁ l = firstSeenAux s₂ l := by
  induction l generalizing s₁ s₂ with
  | nil => rfl
  | cons a l ih =>
    by_cases ha : a ∈ s₁
    · simp [firstSeenAux, ha, (h a).mp ha, ih _ _ h]
    · have ha₂ : a ∉ s₂ := fun hc => ha ((h a).mpr hc)
      simp only [firstSeenAux, if_neg ha, if_neg ha₂]
      refine congrArg _ (ih _ _ ?_)
      intro x
      simp [h x]

theorem map_fst_countInto {α : Type} [DecidableEq α]
    (l : List α) (init : List (α × Nat)) :
    (countInto init l).map Prod.fst =
      init.map Prod.fst ++ firstSeenAux (init.map Prod.fst) l := by
  induction l generalizing init with
  | nil => simp [countInto, firstSeenAux]
  | cons a l ih =>
    have hstep : countInto init (a :: l) = countInto (updateTermCountingDict init a) l := by
      simp [countInto]
    rw [hstep, ih]
    by_cases ha : a ∈ init.map Prod.fst
    · rw [map_fst_updateTermCountingDict_of_mem init a ha]
      simp [firstSeenAux, ha]
    · rw [map_fst_updateTermCountingDict_of_not_mem init a ha]
      simp only [firstSeenAux, if_neg ha]
      rw [List.append_assoc]
      simp only [List.singleton_append]
      refine congrArg _ (congrArg _ ?_)
      refine firstSeenAux_congr l _ _ ?_
      intro x
      simp [or_comm]

theorem countInto_append {α : Type} [DecidableEq α]
    (init : List (α × Nat)) (l₁ l₂ : List α) :
    countInto init (l₁ ++ l₂) = countInto (countInto init l₁) l₂ := by
  simp [countInto, List.foldl_append]

theorem foldl_countInto_flatMap {α β : Type} [DecidableEq α]
    (g : β → List α) (l : List β) (init : List (α × Nat)) :
    l.foldl (fun acc b => countInto acc (g b)) init = countInto init (l.flatMap g) := by
  induction l generalizing init with
  | nil => simp [countInto]
  | cons b l ih =>
    simp only [List.foldl_cons, List.flatMap_cons, countInto_append]
    exact ih _

/-- The counting loop of `_get_terms` counts exactly the piece stream. -/
theorem getTermCounts_eq (metadata : List Row) (cols : List String) :
    getTermCounts metadata cols = countInto [] (allPieces metadata cols) := by
  unfold getTermCounts allPieces
  rw [List.foldl_ext _
    (fun acc col => countInto acc (metadata.flatMap (fun row => cellTerms (row.getD col ""))))
    []
    (fun acc col _ =>
      foldl_countInto_flatMap (fun row => cellTerms (row.getD col "")) metadata acc)]
  exact foldl_countInto_flatMap _ cols []

/-- The counting loop of `_get_terms_and_uris` counts exactly the pair
stream. -/
theorem getTermAndUriCounts_eq (metadata : List Row) (cols : List String) :
    getTermAndUriCounts metadata cols = countInto [] (allCellPairs metadata cols) := by
  unfold getTermAndUriCounts allCellPairs
  rw [List.foldl_ext _
    (fun acc col => countInto acc (metadata.flatMap (fun row =>
      cellPairs (row.getD col " ") (row.getD (col ++ "_valueURI") " "))))
    []
    (fun acc col _ =>
      foldl_countInto_flatMap
        (fun row => cellPairs (row.getD col " ") (row.getD (col ++ "_valueURI") " "))
        metadata acc)]
  exact foldl_countInto_flatMap _ cols []

theorem mem_firstSeenAux {α : Type} [DecidableEq α] {x : α} :
    ∀ {l seen : List α}, x ∈ firstSeenAux seen l → x ∈ l ∧ x ∉ seen := by
  intro l
  induction l with
  | nil => intro seen h; simp [firstSeenAux] at h
  | cons a l ih =>
    intro seen h
    by_cases ha : a ∈ seen
    · rw [firstSeenAux, if_pos ha] at h
      obtain ⟨hl, hs⟩ := ih h
      exact ⟨List.mem_cons_of_mem a hl, hs⟩
    · rw [firstSeenAux, if_neg ha] at h
      rcases List.mem_cons.mp h with h | h
      · subst h
        exact ⟨List.mem_cons_self x l, ha⟩
      · obtain ⟨hl, hs⟩ := ih h
        refine ⟨List.mem_cons_of_mem a hl, fun hc => hs (List.mem_cons_of_mem a hc)⟩

theorem nodup_firstSeenAux {α : Type} [DecidableEq α] :
    ∀ (l seen : List α), (firstSeenAux seen l).Nodup := by
  intro l
  induction l with
  | nil => intro seen; simp [firstSeenAux]
  | cons a l ih =>
    intro seen
    by_cases ha : a ∈ seen
    · rw [firstSeenAux, if_pos ha]
      exact ih seen
    · rw [firstSeenAux, if_neg ha]
      refine List.Nodup.cons ?_ (ih (a :: seen))
      intro hc
      exact (mem_firstSeenAux hc).2 (List.mem_cons_self a seen)

/-- The keys of the counting dictionary are the distinct pieces in
first-encounter order. -/
theorem map_fst_getTermCounts (metadata : List Row) (cols : List String) :
    (getTermCounts metadata cols).map Prod.fst = firstSeen (allPieces metadata cols) := by
  rw [getTermCounts_eq, map_fst_countInto]
  simp [firstSeen]

/-- Likewise for the paired counter. -/
theorem map_fst_getTermAndUriCounts (metadata : List Row) (cols : List String) :
    (getTermAndUriCounts metadata cols).map Prod.fst =
      firstSeen (allCellPairs metadata cols) := by
  rw [getTermAndUriCounts_eq, map_fst_countInto]
  simp [firstSeen]

theorem countOfKey_eq_of_mem {α : Type} [DecidableEq α] :
    ∀ {ctr : List (α × Nat)}, (ctr.map Prod.fst).Nodup →
      ∀ {p : α × Nat}, p ∈ ctr → countOfKey ctr p.1 = p.2 := by
  intro ctr
  induction ctr with
  | nil => intro _ p hp; simp at hp
  | cons q rest ih =>
    intro hnd p hp
    rw [List.map_cons] at hnd
    obtain ⟨hq, hrest⟩ := List.nodup_cons.mp hnd
    rcases List.mem_cons.mp hp with h | h
    · subst h
      simp [countOfKey]
    · have hne : ¬ q.1 = p.1 := by
        intro hc
        exact hq (hc ▸ (List.mem_map.mpr ⟨p, h, rfl⟩))
      obtain ⟨k, c⟩ := q
      rw [countOfKey, if_neg hne]
      exact ih hrest h

/-- Every stored count is the occurrence count of its key in the piece
stream. -/
theorem snd_eq_count_of_mem_getTermCounts {metadata : List Row} {cols : List String}
    {p : String × Nat} (hp : p ∈ getTermCounts metadata cols) :
    p.2 = occCount p.1 (allPieces metadata cols) := by
  have hnd : ((getTermCounts metadata cols).map Prod.fst).Nodup := by
    rw [map_fst_getTermCounts]
    exact nodup_firstSeenAux _ _
  have h1 := countOfKey_eq_of_mem hnd hp
  rw [getTermCounts_eq] at h1
  rw [countOfKey_countInto] at h1
  simpa [countOfKey] using h1.symm

/-- Likewise for the paired counter. -/
theorem snd_eq_count_of_mem_getTermAndUriCounts {metadata : List Row} {cols : List String}
    {p : (String × String) × Nat} (hp : p ∈ getTermAndUriCounts metadata cols) :
    p.2 = occCount p.1 (allCellPairs metadata cols) := by
  have hnd : ((getTermAndUriCounts metadata cols).map Prod.fst).Nodup := by
    rw [map_fst_getTermAndUriCounts]
    exact nodup_firstSeenAux _ _
  have h1 := countOfKey_eq_of_mem hnd hp
  rw [getTermAndUriCounts_eq] at h1
  rw [countOfKey_countInto] at h1
  simpa [countOfKey] using h1.symm

/-! ### Sorting lemmas -/

theorem pairwise_sortByCountDesc {α : Type} (l : List (α × Nat)) :
    (sortByCountDesc l).Pairwise (fun a b => b.2 ≤ a.2) := by
  haveI : IsTotal (α × Nat) (fun a b => b.2 ≤ a.2) :=
    ⟨fun a b => Nat.le_total b.2 a.2⟩
  haveI : IsTrans (α × Nat) (fun a b => b.2 ≤ a.2) :=
    ⟨fun _ _ _ h1 h2 => Nat.le_trans h2 h1⟩
  exact List.sorted_insertionSort _ l

theorem sublist_sortByCountDesc {α : Type} {l c : List (α × Nat)}
    (hc : c.Pairwise (fun a b => b.2 ≤ a.2)) (hs : c.Sublist l) :
    c.Sublist (sortByCountDesc l) :=
  List.sublist_insertionSort hc hs

theorem perm_sortByCountDesc {α : Type} (l : List (α × Nat)) :
    List.Perm (sortByCountDesc l) l :=
  List.perm_insertionSort _ l

/-- C3: the term aggregator returns terms in strictly non-increasing
occurrence-count order; two terms with equal counts appear in
first-encounter order; any truncation of the result keeps the
non-increasing count order, so a lower-count term is never placed before
a higher-count one. -/
theorem getTerms_frequency_order (metadata : List Row) (cols : List String) :
    (getTerms metadata cols).Pairwise
      (fun a b => occCount b (allPieces metadata cols) ≤ occCount a (allPieces metadata cols))
    ∧ (∀ a b : String,
        occCount a (allPieces metadata cols) = occCount b (allPieces metadata cols) →
        List.Sublist [a, b] (firstSeen (allPieces metadata cols)) →
        List.Sublist [a, b] (getTerms metadata cols))
    ∧ (∀ n : Nat, ((getTerms metadata cols).take n).Pairwise
        (fun a b =>
          occCount b (allPieces metadata cols) ≤ occCount a (allPieces metadata cols))) := by
  have hcount : ∀ p ∈ sortByCountDesc (getTermCounts metadata cols),
      p.2 = occCount p.1 (allPieces metadata cols) := by
    intro p hp
    exact snd_eq_count_of_mem_getTermCounts
      ((perm_sortByCountDesc (getTermCounts metadata cols)).mem_iff.mp hp)
  have hpair : (getTerms metadata cols).Pairwise
      (fun a b =>
        occCount b (allPieces metadata cols) ≤ occCount a (allPieces metadata cols)) := by
    unfold getTerms
    rw [List.pairwise_map]
    refine List.Pairwise.imp_of_mem ?_ (pairwise_sortByCountDesc (getTermCounts metadata cols))
    intro p q hp hq hle
    rw [← hcount p hp, ← hcount q hq]
    exact hle
  refine ⟨hpair, ?_, fun n => List.Pairwise.sublist (List.take_sublist n _) hpair⟩
  intro a b hco hfs
  rw [← map_fst_getTermCounts] at hfs
  obtain ⟨l2, hsub, hmapeq⟩ := List.sublist_map_iff.mp hfs
  cases l2 with
  | nil => simp at hmapeq
  | cons pa l2' =>
    cases l2' with
    | nil => simp at hmapeq
    | cons pb l2'' =>
      cases l2'' with
      | cons pc l2''' => simp at hmapeq
      | nil =>
        obtain ⟨ha, hb⟩ : a = pa.1 ∧ b = pb.1 := by simpa using hmapeq
        have hpa : pa ∈ getTermCounts metadata cols := hsub.mem (List.mem_cons_self _ _)
        have hpb : pb ∈ getTermCounts metadata cols := by
          refine hsub.mem ?_
          simp
        have hcb : pb.2 ≤ pa.2 := by
          rw [snd_eq_count_of_mem_getTermCounts hpa, snd_eq_count_of_mem_getTermCounts hpb,
            ← ha, ← hb, hco]
        have hss : List.Sublist [pa, pb] (sortByCountDesc (getTermCounts metadata cols)) :=
          sublist_sortByCountDesc (List.pairwise_pair.mpr hcb) hsub
        have hmap := hss.map Prod.fst
        rw [ha, hb]
        simpa [getTerms] using hmap

/-- Witness for C3 at a concrete input: in a one-row collection whose
cell splits into the equal-count pieces `X` and `Y`, the aggregator
keeps the first-encounter order. -/
theorem getTerms_frequency_order_witness :
    List.Sublist ["X", "Y"] (getTerms [[("c", "X;Y")]] ["c"]) :=
  (getTerms_frequency_order [[("c", "X;Y")]] ["c"]).2.1 "X" "Y" (by decide) (by decide)

theorem flatMap_congr_left {α β : Type} (l : List α) (f g : α → List β)
    (h : ∀ a ∈ l, f a = g a) : l.flatMap f = l.flatMap g := by
  induction l with
  | nil => rfl
  | cons a l ih =>
    simp only [List.flatMap_cons, h a (List.mem_cons_self a l)]
    rw [ih (fun b hb => h b (List.mem_cons_of_mem a hb))]

/-- C8 (counterexample to the claim as stated): in the paired
aggregator, a row that lacks the requested column does NOT contribute
nothing: the term and uri cells default to a single space `" "`
(`row.get(column, " ")`), which is a non-empty cell and is counted. -/
theorem getTermsAndUris_missing_column_counts :
    getTermsAndUris [[("x", "1")]] ["personal_name_subject"] = [(" ", " ")]
    ∧ [((" " : String), (" " : String))] ≠ [] := by
  constructor
  · decide
  · decide

/-- C8 (amended): in the plain aggregator a row is read only through
`row.get(col, "")`, so a missing column is exactly a present-but-empty
cell, and such a row contributes nothing; each key's stored count is its
number of occurrences in the stream of delimiter-split pieces; cell
`"A;B;C"` alone yields the three terms in order; in the paired
aggregator, however, a row missing the requested column contributes the
single-space pair `(" ", " ")`, while a present-but-empty term cell
contributes nothing there as well. -/
theorem aggregator_cell_handling :
    (∀ (cols : List String) (m₁ m₂ : List Row) (r r' : Row),
        (∀ c ∈ cols, Row.getD r c "" = Row.getD r' c "") →
        getTerms (m₁ ++ r :: m₂) cols = getTerms (m₁ ++ r' :: m₂) cols)
    ∧ (∀ (cols : List String) (m₁ m₂ : List Row) (r : Row),
        (∀ c ∈ cols, Row.getD r c "" = "") →
        getTerms (m₁ ++ r :: m₂) cols = getTerms (m₁ ++ m₂) cols)
    ∧ (∀ (metadata : List Row) (cols : List String) (x : String),
        countOfKey (getTermCounts metadata cols) x = occCount x (allPieces metadata cols))
    ∧ getTerms [[("c", "A;B;C")]] ["c"] = ["A", "B", "C"]
    ∧ (∀ (col : String) (r : Row),
        Row.get? r col = none → Row.get? r (col ++ "_valueURI") = none →
        getTermsAndUris [r] [col] = [(" ", " ")])
    ∧ (∀ (col : String) (m₁ m₂ : List Row) (r : Row),
        Row.getD r col " " = "" →
        getTermsAndUris (m₁ ++ r :: m₂) [col] = getTermsAndUris (m₁ ++ m₂) [col]) := by
  refine ⟨?_, ?_, ?_, by decide, ?_, ?_⟩
  · intro cols m₁ m₂ r r' h
    have hp : allPieces (m₁ ++ r :: m₂) cols = allPieces (m₁ ++ r' :: m₂) cols := by
      unfold allPieces
      refine flatMap_congr_left cols _ _ ?_
      intro c hc
      simp only [List.flatMap_append, List.flatMap_cons, h c hc]
    unfold getTerms
    rw [getTermCounts_eq, getTermCounts_eq, hp]
  · intro cols m₁ m₂ r h
    have hp : allPieces (m₁ ++ r :: m₂) cols = allPieces (m₁ ++ m₂) cols := by
      unfold allPieces
      refine flatMap_congr_left cols _ _ ?_
      intro c hc
      simp only [List.flatMap_append, List.flatMap_cons, h c hc]
      simp [cellTerms]
    unfold getTerms
    rw [getTermCounts_eq, getTermCounts_eq, hp]
  · intro metadata cols x
    rw [getTermCounts_eq, countOfKey_countInto]
    simp [countOfKey]
  · intro col r h1 h2
    have e1 : Row.getD r col " " = " " := by
      unfold Row.getD
      unfold Row.get? at h1
      rw [h1]
      rfl
    have e2 : Row.getD r (col ++ "_valueURI") " " = " " := by
      unfold Row.getD
      unfold Row.get? at h2
      rw [h2]
      rfl
    unfold getTermsAndUris getTermAndUriCounts
    simp only [List.foldl_cons, List.foldl_nil, e1, e2]
    decide
  · intro col m₁ m₂ r h
    have hp : allCellPairs (m₁ ++ r :: m₂) [col] = allCellPairs (m₁ ++ m₂) [col] := by
      unfold allCellPairs
      refine flatMap_congr_left _ _ _ ?_
      intro c hc
      have hc' : c = col := by simpa using hc
      subst hc'
      simp only [List.flatMap_append, List.flatMap_cons, h]
      simp [cellPairs]
    unfold getTermsAndUris
    rw [getTermAndUriCounts_eq, getTermAndUriCounts_eq, hp]

/-- Witness for C8 at a concrete input: a row carrying only an unrelated
column, scanned by the paired aggregator, yields the single-space
pair. -/
theorem aggregator_cell_handling_witness :
    getTermsAndUris [[("x", "1")]] ["corporate_name_subject"] = [(" ", " ")] :=
  aggregator_cell_handling.2.2.2.2.1 "corporate_name_subject" [("x", "1")]
    (by decide) (by decide)

theorem zipLongest_length (xs ys : List String) :
    (zipLongest xs ys).length = max xs.length ys.length := by
  induction xs generalizing ys with
  | nil => simp [zipLongest]
  | cons x xs ih =>
    cases ys with
    | nil =>
      simp only [zipLongest, List.length_cons, ih []]
      simp
    | cons y ys =>
      simp only [zipLongest, List.length_cons, ih ys]
      omega

theorem zipLongest_getD (xs ys : List String) (i : Nat) :
    (zipLongest xs ys).getD i ("", "") = (xs.getD i "", ys.getD i "") := by
  induction xs generalizing ys i with
  | nil =>
    induction ys generalizing i with
    | nil => simp [zipLongest]
    | cons y ys ihy =>
      cases i with
      | zero => simp [zipLongest]
      | succ i =>
        simp only [zipLongest, List.map_cons, List.getD_cons_succ]
        have h := ihy i
        simp only [zipLongest] at h
        exact h
  | cons x xs ih =>
    cases ys with
    | nil =>
      cases i with
      | zero => simp [zipLongest]
      | succ i =>
        simp only [zipLongest, List.getD_cons_succ]
        exact ih [] i
    | cons y ys =>
      cases i with
      | zero => simp [zipLongest]
      | succ i =>
        simp only [zipLongest, List.getD_cons_succ]
        exact ih ys i

/-- C4 (counterexample to the claim as stated): a term cell with two
pieces paired with a uri cell with three pieces produces THREE pairs,
not two: `zip_longest` pads the term side with `""`, so the excess uri
piece creates an extra pair with an empty term. -/
theorem getTermsAndUris_excess_uri_pieces :
    getTermsAndUris
        [[("personal_name_subject", "A;B"), ("personal_name_subject_valueURI", "x;y;z")]]
        ["personal_name_subject"] = [("A", "x"), ("B", "y"), ("", "z")]
    ∧ (splitChar ';' "A;B").length = 2
    ∧ ([("A", "x"), ("B", "y"), ("", "z")] : List (String × String)).length = 3 := by
  refine ⟨by decide, by decide, by decide⟩

/-- C4 (amended): for a cell whose term value contains the delimiter,
the pairs produced are the `zip_longest` of the term pieces and the uri
pieces with `""` filling both sides: there are `max k m` pairs, the
`i`-th pair is the `i`-th term piece (or `""` beyond `k`) paired with
the `i`-th uri piece (or `""` beyond `m`); a term cell without the
delimiter yields the single pair of the whole cells; pairing is total
and never fails. -/
theorem cellPairs_zip_longest (t u : String)
    (ht : t ≠ "") (hsep : t.data.contains ';' = true) :
    (cellPairs t u).length = max (splitChar ';' t).length (splitChar ';' u).length
    ∧ (∀ i : Nat, (cellPairs t u).getD i ("", "") =
        ((splitChar ';' t).getD i "", (splitChar ';' u).getD i ""))
    ∧ (∀ t' u' : String, t' ≠ "" → t'.data.contains ';' = false →
        cellPairs t' u' = [(t', u')]) := by
  refine ⟨?_, ?_, ?_⟩
  · unfold cellPairs
    rw [if_neg ht, if_pos hsep]
    exact zipLongest_length _ _
  · intro i
    unfold cellPairs
    rw [if_neg ht, if_pos hsep]
    exact zipLongest_getD _ _ i
  · intro t' u' ht' hsep'
    unfold cellPairs
    rw [if_neg ht', if_neg (by rw [hsep']; exact Bool.false_ne_true)]

/-- Witness for C4 at a concrete input: the two-piece term cell `"A;B"`
and three-piece uri cell `"x;y;z"` pair into three pairs whose third is
`("", "z")`. -/
theorem cellPairs_zip_longest_witness :
    (cellPairs "A;B" "x;y;z").length = 3
    ∧ (cellPairs "A;B" "x;y;z").getD 2 ("", "") = ("", "z") := by
  have h := cellPairs_zip_longest "A;B" "x;y;z" (by decide) (by decide)
  constructor
  · rw [h.1]
    decide
  · rw [h.2.1 2]
    decide

/-- The vocabulary classifier exactly as the spec words it, for
comparison with the code's `_add_terms_multiple_vocabularies`: a pair
whose trimmed term is empty yields no field; else, in order: a uri
containing the name-authority marker yields second indicator `0` and no
vocabulary-source subfield; else a uri containing the
subject-heading-authority (FAST) marker yields second indicator `7` and
subfield 2 `fast`; else an exactly empty uri yields second indicator `7`
and subfield 2 `local`; else the caller-supplied fallback second
indicator with no vocabulary-source subfield. -/
def classifyVocabularySpec (tag firstInd fallback2nd : String)
    (tu : String × String) : Option Field :=
  if pyStrip tu.1 = "" then none
  else if strContains tu.2 "id.loc.gov" then
    some (Field.general tag firstInd "0" [("a", tu.1)])
  else if strContains tu.2 "id.worldcat.org/fast" then
    some (Field.general tag firstInd "7" [("a", tu.1), ("2", "fast")])
  else if tu.2 = "" then
    some (Field.general tag firstInd "7" [("a", tu.1), ("2", "local")])
  else
    some (Field.general tag firstInd fallback2nd [("a", tu.1)])

/-- C2: the emitted name/subject entries are exactly the spec's
classification of each (term, uri) pair, in order — decision order
preserved, empty-trimmed terms skipped; and on a two-row collection with
one FAST-uri name subject and one uri-less name subject, exactly the two
expected `600` fields are produced, first `fast` then `local`, both with
second indicator `7`. -/
theorem addTermsMultipleVocabularies_spec (tag firstInd fallback2nd : String)
    (termsUris : List (String × String)) :
    addTermsMultipleVocabularies tag termsUris firstInd fallback2nd =
      termsUris.filterMap (classifyVocabularySpec tag firstInd fallback2nd)
    ∧ (buildRecord "240101" [] 5
        [[("title", "T"), ("digital_collection", "D"), ("ark", "a1"),
          ("description", "d"), ("date_original", ""), ("language", "eng"),
          ("personal_name_subject", "Doe, Jane"),
          ("personal_name_subject_valueURI", "http://id.worldcat.org/fast/123")],
         [("date_original", ""), ("ark", ""),
          ("personal_name_subject", "Roe, Rich"),
          ("personal_name_subject_valueURI", "")]]).map (fieldsWithTag "600") =
      some
        [Field.general "600" "1" "7" [("a", "Doe, Jane"), ("2", "fast")],
         Field.general "600" "1" "7" [("a", "Roe, Rich"), ("2", "local")]] := by
  constructor
  · induction termsUris with
    | nil => rfl
    | cons tu rest ih =>
      have hhead : addTermsMultipleVocabularies tag [tu] firstInd fallback2nd =
          (classifyVocabularySpec tag firstInd fallback2nd tu).toList := by
        unfold addTermsMultipleVocabularies classifyVocabularySpec
        by_cases h1 : pyStrip tu.1 = ""
        · simp [h1]
        · by_cases h2 : strContains tu.2 "id.loc.gov"
          · simp [h1, h2]
          · by_cases h3 : strContains tu.2 "id.worldcat.org/fast"
            · simp [h1, h2, h3]
            · by_cases h4 : tu.2 = ""
              · have hc1 : strContains "" "id.loc.gov" = false := by decide
                have hc2 : strContains "" "id.worldcat.org/fast" = false := by decide
                simp [h1, h2, h3, h4, hc1, hc2]
              · simp [h1, h2, h3, h4]
      have hsplit : addTermsMultipleVocabularies tag (tu :: rest) firstInd fallback2nd =
          addTermsMultipleVocabularies tag [tu] firstInd fallback2nd ++
            addTermsMultipleVocabularies tag rest firstInd fallback2nd := by
        simp [addTermsMultipleVocabularies]
      rw [hsplit, hhead, ih]
      cases hcls : classifyVocabularySpec tag firstInd fallback2nd tu with
      | none => simp [List.filterMap_cons, hcls]
      | some f => simp [List.filterMap_cons, hcls]
  · decide

theorem charListLe_total : ∀ as bs : List Char,
    charListLe as bs = true ∨ charListLe bs as = true := by
  intro as
  induction as with
  | nil => intro bs; exact Or.inl rfl
  | cons a as ih =>
    intro bs
    cases bs with
    | nil => exact Or.inr rfl
    | cons b bs =>
      by_cases hab : a = b
      · subst hab
        rcases ih bs with h | h
        · exact Or.inl (by simp [charListLe, h])
        · exact Or.inr (by simp [charListLe, h])
      · have hba : ¬ b = a := fun h => hab h.symm
        rcases lt_trichotomy a b with h | h | h
        · exact Or.inl (by simp [charListLe, hab, h])
        · exact absurd h hab
        · exact Or.inr (by simp [charListLe, hba, h])

theorem charListLe_trans : ∀ as bs cs : List Char,
    charListLe as bs = true → charListLe bs cs = true → charListLe as cs = true := by
  intro as
  induction as with
  | nil => intro bs cs _ _; rfl
  | cons a as ih =>
    intro bs cs h1 h2
    cases bs with
    | nil => simp [charListLe] at h1
    | cons b bs =>
      cases cs with
      | nil => simp [charListLe] at h2
      | cons c cs =>
        by_cases hab : a = b
        · subst hab
          by_cases hac : a = c
          · subst hac
            simp only [charListLe, if_pos rfl] at h1 h2 ⊢
            exact ih bs cs h1 h2
          · simp only [charListLe, if_neg hac] at h2 ⊢
            exact h2
        · simp only [charListLe, if_neg hab, decide_eq_true_eq] at h1
          by_cases hbc : b = c
          · subst hbc
            simp [charListLe, hab, h1]
          · simp only [charListLe, if_neg hbc, decide_eq_true_eq] at h2
            have hac : a < c := lt_trans h1 h2
            simp [charListLe, ne_of_lt hac, hac]

/-- C7 (counterexample to the claim as stated): two rows carrying the
same year `"1950"` yield the degenerate range `"1950-1950."`, not the
single year: the branch is on the number of collected years with
multiplicity, not on distinct years. -/
theorem getDateRange_duplicate_year :
    getYears [[("date_original", "1950")], [("date_original", "1950")]] =
      some ["1950", "1950"]
    ∧ (firstSeen ["1950", "1950"]).length = 1
    ∧ getDateRange ["1950", "1950"] = "1950-1950."
    ∧ "1950-1950." ≠ "1950" := by
  refine ⟨by decide, by decide, by decide, by decide⟩

/-- C7 (amended): the date-range calculator collects the first four
characters of every non-empty `date_original` cell, sorts them
lexicographically (the result is a sorted permutation of the collected
years), and returns the empty string for zero collected years, the year
itself for exactly one collected year, and `"{first}-{last}."` for two
or more collected years with multiplicity (so duplicate years of a
single distinct year still produce a degenerate range). -/
theorem getYears_getDateRange_spec (metadata : List Row) (cells ys : List String)
    (hc : getYearCells metadata = some cells) (hy : getYears metadata = some ys) :
    ys.Pairwise strLeRel
    ∧ List.Perm ys ((cells.filter (· ≠ "")).map take4)
    ∧ (ys = [] → getDateRange ys = "")
    ∧ (∀ y, ys = [y] → getDateRange ys = y)
    ∧ (∀ y1 y2 t, ys = y1 :: y2 :: t →
        getDateRange ys = y1 ++ "-" ++ ((y2 :: t).getLast (List.cons_ne_nil y2 t)) ++ ".") := by
  have hys : ys = ((cells.filter (· ≠ "")).map take4).insertionSort strLeRel := by
    unfold getYears at hy
    rw [hc] at hy
    simpa using hy.symm
  subst hys
  refine ⟨?_, List.perm_insertionSort _ _, ?_, ?_, ?_⟩
  · haveI : IsTotal String strLeRel := ⟨fun a b => charListLe_total a.data b.data⟩
    haveI : IsTrans String strLeRel :=
      ⟨fun a b c h1 h2 => charListLe_trans a.data b.data c.data h1 h2⟩
    exact List.sorted_insertionSort _ _
  · intro h
    rw [h]
    rfl
  · intro y h
    rw [h]
    rfl
  · intro y1 y2 t h
    rw [h]
    rfl

/-- Witness for C7 at a concrete input: two distinct years sort into
ascending order and produce the dotted range. -/
theorem getYears_getDateRange_spec_witness :
    List.Pairwise strLeRel ["1950", "1962"]
    ∧ getDateRange ["1950", "1962"] = "1950" ++ "-" ++ "1962" ++ "." := by
  have h := getYears_getDateRange_spec
    [[("date_original", "1962")], [("date_original", "1950")]]
    ["1962", "1950"] ["1950", "1962"] (by decide) (by decide)
  exact ⟨h.1, h.2.2.2.2 "1950" "1962" [] rfl⟩

/-- C9 (counterexample to the claim as stated): the stopword set of
`title_case` does not contain `"The"`, so the interior `"the"` of
`"the end of the road"` is NOT lowercased: the result is
`"The End of The Road"`, not the claimed `"The End of the Road"`. -/
theorem title_case_the_not_lowercased :
    title_case "the end of the road" = "The End of The Road"
    ∧ "The End of The Road" ≠ "The End of the Road" := by
  refine ⟨by decide, by decide⟩

/-- C9 (amended): `title_case` capitalizes each word, lowercases interior
words belonging to the fixed stopword set — which contains `"Of"`,
`"On"`, ... but not `"The"` — leaves the first and last word capitalized
even when they are stopwords, and forces the letter after an apostrophe
to lowercase; `"the end of the road"` maps to `"The End of The Road"`
(interior `"of"` lowered, interior `"the"` kept capitalized) and
`"Wasn'T"` maps to `"Wasn't"`. -/
theorem title_case_spec :
    title_case "Wasn'T" = "Wasn't"
    ∧ title_case "the end of the road" = "The End of The Road"
    ∧ title_case "end on end" = "End on End"
    ∧ title_case "on the hill on" = "On The Hill On"
    ∧ "The" ∉ dontCapitalize
    ∧ "On" ∈ dontCapitalize
    ∧ (∀ (n : Nat) (w : String), titleCaseWord n 0 w = apostropheFix w)
    ∧ (∀ (n i : Nat) (w : String), n - 1 ≤ i → titleCaseWord n i w = apostropheFix w) := by
  refine ⟨by decide, by decide, by decide, by decide, by decide, by decide, ?_, ?_⟩
  · intro n w
    simp [titleCaseWord]
  · intro n i w h
    have hni : ¬ i < n - 1 := by omega
    simp [titleCaseWord, hni]

/-- Witness for C9 at a concrete input: the word at the last position is
not stopword-lowered. -/
theorem title_case_spec_witness :
    titleCaseWord 3 2 "Of" = apostropheFix "Of" :=
  title_case_spec.2.2.2.2.2.2.2 3 2 "Of" (by decide)

/-- C6 (code evaluated at the failing input): the avian branch of
`get_geographic_terms` would read the `geographic_subject_geonames`
column, but `IslandoraRecord.__init__` accepts no `avian` argument and
never forwards one to the base class, so the flag is always `False` and
the built record reads only the standard columns: on a collection whose
only geographic data is in the geonames column, the record emits no
geographic-subject (`651`) field at all. -/
theorem avian_flag_never_forwarded :
    getGeographicTerms true [[("geographic_subject_geonames", "Ames")]] = ["Ames"]
    ∧ getGeographicTerms false [[("geographic_subject_geonames", "Ames")]] = []
    ∧ (buildRecord "240101" [] 5
        [[("title", "T"), ("digital_collection", "D"), ("ark", "a1"),
          ("description", "d"), ("date_original", ""), ("language", "eng"),
          ("geographic_subject_geonames", "Ames")]]).map (countTag "651") = some 0 := by
  refine ⟨by decide, by decide, by decide⟩

/-! ### Success and failure conditions of the builder's fallible steps -/

theorem scanDisclaimer_isSome_of (rows : List Row)
    (h : ∀ r ∈ rows, (Row.get? r "disclaimer").isSome) :
    (scanDisclaimer rows).isSome := by
  induction rows with
  | nil => simp [scanDisclaimer]
  | cons r rs ih =>
    obtain ⟨d, hd⟩ := Option.isSome_iff_exists.mp (h r (List.mem_cons_self r rs))
    rw [scanDisclaimer]
    simp only [bind, hd, Option.some_bind]
    by_cases hde : d ≠ ""
    · simp [hde]
    · simp only [hde, if_neg]
      simp at hde
      simp [hde]
      exact ih (fun r hr => h r (List.mem_cons_of_mem _ hr))

theorem getDisclaimer_isSome_of (r0 : Row) (rest : List Row)
    (h : (∀ r ∈ r0 :: rest, (Row.get? r "disclaimer").isSome)
      ∨ Row.get? r0 "disclaimer" = none) :
    (getDisclaimer (r0 :: rest)).isSome := by
  rw [getDisclaimer]
  simp only [bind, List.head?_cons, Option.some_bind]
  rcases h with h | h
  · obtain ⟨d, hd⟩ := Option.isSome_iff_exists.mp (h r0 (List.mem_cons_self r0 rest))
    rw [hd]
    exact scanDisclaimer_isSome_of _ h
  · rw [h]
    rfl

theorem getYearCells_isSome_of (rows : List Row)
    (h : ∀ r ∈ rows, (Row.get? r "date_original").isSome) :
    (getYearCells rows).isSome := by
  induction rows with
  | nil => simp [getYearCells]
  | cons r rs ih =>
    obtain ⟨c, hc⟩ := Option.isSome_iff_exists.mp (h r (List.mem_cons_self r rs))
    obtain ⟨cs, hcs⟩ := Option.isSome_iff_exists.mp
      (ih (fun r hr => h r (List.mem_cons_of_mem _ hr)))
    rw [getYearCells]
    simp [bind, hc, hcs]

theorem getYearCells_eq_none_of (rows : List Row) (r : Row) (hr : r ∈ rows)
    (h : Row.get? r "date_original" = none) :
    getYearCells rows = none := by
  induction rows with
  | nil => simp at hr
  | cons r' rs ih =>
    rcases List.mem_cons.mp hr with hh | hh
    · subst hh
      rw [getYearCells]
      simp [bind, h]
    · rw [getYearCells]
      cases hc : Row.get? r' "date_original" with
      | none => simp [bind, hc]
      | some c => simp [bind, hc, ih hh]

theorem countArks_isSome_of (rows : List Row)
    (h : ∀ r ∈ rows, (Row.get? r "ark").isSome) :
    (countArks rows).isSome := by
  induction rows with
  | nil => simp [countArks]
  | cons r rs ih =>
    obtain ⟨a, ha⟩ := Option.isSome_iff_exists.mp (h r (List.mem_cons_self r rs))
    obtain ⟨n, hn⟩ := Option.isSome_iff_exists.mp
      (ih (fun r hr => h r (List.mem_cons_of_mem _ hr)))
    rw [countArks]
    simp [bind, ha, hn]

theorem countArks_eq_none_of (rows : List Row) (r : Row) (hr : r ∈ rows)
    (h : Row.get? r "ark" = none) :
    countArks rows = none := by
  induction rows with
  | nil => simp at hr
  | cons r' rs ih =>
    rcases List.mem_cons.mp hr with hh | hh
    · subst hh
      rw [countArks]
      simp [bind, h]
    · rw [countArks]
      cases ha : Row.get? r' "ark" with
      | none => simp [bind, ha]
      | some a => simp [bind, ha, ih hh]

theorem getCollectionDescriptions_isSome_of (r0 : Row) (rest : List Row)
    (hd : (Row.get? r0 "description").isSome)
    (ht : (Row.get? r0 "title").isSome) :
    (getCollectionDescriptions (r0 :: rest)).isSome := by
  obtain ⟨desc, hdesc⟩ := Option.isSome_iff_exists.mp hd
  obtain ⟨title, htitle⟩ := Option.isSome_iff_exists.mp ht
  rw [getCollectionDescriptions]
  simp only [bind, List.head?_cons, Option.some_bind, hdesc]
  cases hp : pyPartition desc "The collection" with
  | none => rfl
  | some ba =>
    obtain ⟨bioHist, after⟩ := ba
    by_cases hafter : after = ""
    · simp [hafter]
    · simp [hafter, htitle]

theorem getCollectionDescriptions_eq_none_of (r0 : Row) (rest : List Row)
    (hd : Row.get? r0 "description" = none) :
    getCollectionDescriptions (r0 :: rest) = none := by
  rw [getCollectionDescriptions]
  simp [bind, hd]

theorem getTitle_isSome_of (r0 : Row) (rest : List Row)
    (ht : (Row.get? r0 "title").isSome) :
    (getTitle (r0 :: rest)).isSome := by
  obtain ⟨t, htitle⟩ := Option.isSome_iff_exists.mp ht
  rw [getTitle]
  simp only [bind, List.head?_cons, Option.some_bind, htitle]
  cases hsp : splitChar ':' t with
  | nil => rfl
  | cons a parts =>
    cases parts with
    | nil => rfl
    | cons b parts2 =>
      cases parts2 with
      | nil => rfl
      | cons c parts3 => rfl

theorem getTitle_eq_none_of (r0 : Row) (rest : List Row)
    (ht : Row.get? r0 "title" = none) :
    getTitle (r0 :: rest) = none := by
  rw [getTitle]
  simp [bind, ht]

theorem generate008_isSome_iff (today : String) (langs : List String) :
    (generate008 today langs).isSome ↔ langs ≠ [] := by
  cases langs with
  | nil => simp [generate008, bind]
  | cons l ls => simp [generate008, bind]

/-- The builder succeeds exactly when every fallible step succeeds: the
disclaimer scan, the first-row accesses (`digital_collection`, `title`,
`ark`), the `date_original` accesses of every row, the description
split, a non-empty language aggregation, the title split, and the `ark`
accesses of every non-header row. -/
theorem isSome_buildRecord_iff (today : String) (tbl : List (String × String))
    (maxN : Nat) (metadata : List Row) :
    (buildRecord today tbl maxN metadata).isSome ↔
      (getDisclaimer metadata).isSome
      ∧ (∃ r0, metadata.head? = some r0
          ∧ (Row.get? r0 "digital_collection").isSome
          ∧ (Row.get? r0 "title").isSome
          ∧ (Row.get? r0 "ark").isSome)
      ∧ (getYearCells metadata).isSome
      ∧ (getCollectionDescriptions metadata).isSome
      ∧ getTerms metadata ["language"] ≠ []
      ∧ (getTitle metadata).isSome
      ∧ (countArks (metadata.drop 1)).isSome := by
  constructor
  · intro h
    obtain ⟨fields, h⟩ := Option.isSome_iff_exists.mp h
    unfold buildRecord at h
    simp only [bind, Option.bind_eq_some, pure, Option.some.injEq] at h
    obtain ⟨disc, hdisc, r0, hr0, dc, hdc, years, hyears, bs, hbs, d8, hd8, ts, hts,
      oc, hoc, ct, hct, ca, hca, hfields⟩ := h
    have hcells : (getYearCells metadata).isSome := by
      unfold getYears at hyears
      simp only [bind, Option.bind_eq_some] at hyears
      obtain ⟨cells, hcells, _⟩ := hyears
      exact Option.isSome_iff_exists.mpr ⟨cells, hcells⟩
    refine ⟨Option.isSome_iff_exists.mpr ⟨disc, hdisc⟩,
      ⟨r0, hr0, Option.isSome_iff_exists.mpr ⟨dc, hdc⟩,
        Option.isSome_iff_exists.mpr ⟨ct, hct⟩,
        Option.isSome_iff_exists.mpr ⟨ca, hca⟩⟩,
      hcells,
      Option.isSome_iff_exists.mpr ⟨bs, hbs⟩,
      ?_,
      Option.isSome_iff_exists.mpr ⟨ts, hts⟩,
      Option.isSome_iff_exists.mpr ⟨oc, hoc⟩⟩
    exact (generate008_isSome_iff today _).mp (Option.isSome_iff_exists.mpr ⟨d8, hd8⟩)
  · rintro ⟨hdisc, ⟨r0, hr0, hdc, hti, har⟩, hyc, hcd, hlang, hgt, hca⟩
    rw [Option.isSome_iff_exists]
    unfold buildRecord
    simp only [bind, Option.bind_eq_some, pure, Option.some.injEq]
    obtain ⟨disc, hdiscv⟩ := Option.isSome_iff_exists.mp hdisc
    obtain ⟨dc, hdcv⟩ := Option.isSome_iff_exists.mp hdc
    obtain ⟨cells, hcellsv⟩ := Option.isSome_iff_exists.mp hyc
    obtain ⟨bs, hbsv⟩ := Option.isSome_iff_exists.mp hcd
    obtain ⟨d8, hd8v⟩ := Option.isSome_iff_exists.mp
      ((generate008_isSome_iff today _).mpr hlang)
    obtain ⟨ts, htsv⟩ := Option.isSome_iff_exists.mp hgt
    obtain ⟨oc, hocv⟩ := Option.isSome_iff_exists.mp hca
    obtain ⟨ct, hctv⟩ := Option.isSome_iff_exists.mp hti
    obtain ⟨ca, hcav⟩ := Option.isSome_iff_exists.mp har
    have hyearsv : getYears metadata =
        some (((cells.filter (· ≠ "")).map take4).insertionSort strLeRel) := by
      unfold getYears
      simp [bind, hcellsv]
    exact ⟨_, disc, hdiscv, r0, hr0, dc, hdcv, _, hyearsv, bs, hbsv, d8, hd8v,
      ts, htsv, oc, hocv, ct, hctv, ca, hcav, rfl⟩

/-- C1 (counterexample to the claim as stated): a one-row collection
carrying all four collection-level fields (title, digital_collection,
ark, description) still makes the build fail, because no language value
was aggregated and `generate_008_field` reads `lang[0]`. -/
theorem buildRecord_fails_without_language :
    buildRecord "240101" [] 5
      [[("title", "T"), ("digital_collection", "D"), ("ark", "a1"),
        ("description", "d"), ("date_original", "")]] = none
    ∧ (Row.get? [("title", "T"), ("digital_collection", "D"), ("ark", "a1"),
        ("description", "d"), ("date_original", "")] "title").isSome = true
    ∧ (Row.get? [("title", "T"), ("digital_collection", "D"), ("ark", "a1"),
        ("description", "d"), ("date_original", "")] "digital_collection").isSome = true
    ∧ (Row.get? [("title", "T"), ("digital_collection", "D"), ("ark", "a1"),
        ("description", "d"), ("date_original", "")] "ark").isSome = true
    ∧ (Row.get? [("title", "T"), ("digital_collection", "D"), ("ark", "a1"),
        ("description", "d"), ("date_original", "")] "description").isSome = true := by
  refine ⟨by decide, by decide, by decide, by decide, by decide⟩

/-- C1 (amended): the build fails on an empty row sequence and whenever
one of the four collection-level fields is absent from the first row;
but it also fails when the aggregated language list is empty (the `008`
generator reads the first language), when any row lacks the
`date_original` column, and when any non-header row lacks the `ark`
column; it succeeds whenever the rows are non-empty, the four
collection-level fields are present on the first row, every row carries
`date_original`, every non-header row carries `ark`, the `disclaimer`
column is either present on every row or absent from the first, and at
least one language value is aggregated.  (All aggregators and the
remaining derivations are total.) -/
theorem buildRecord_failure_conditions (today : String)
    (tbl : List (String × String)) (maxN : Nat) :
    buildRecord today tbl maxN [] = none
    ∧ (∀ (r0 : Row) (rest : List Row), Row.get? r0 "digital_collection" = none →
        buildRecord today tbl maxN (r0 :: rest) = none)
    ∧ (∀ (r0 : Row) (rest : List Row), Row.get? r0 "title" = none →
        buildRecord today tbl maxN (r0 :: rest) = none)
    ∧ (∀ (r0 : Row) (rest : List Row), Row.get? r0 "ark" = none →
        buildRecord today tbl maxN (r0 :: rest) = none)
    ∧ (∀ (r0 : Row) (rest : List Row), Row.get? r0 "description" = none →
        buildRecord today tbl maxN (r0 :: rest) = none)
    ∧ (∀ metadata : List Row, getTerms metadata ["language"] = [] →
        buildRecord today tbl maxN metadata = none)
    ∧ (∀ (metadata : List Row) (r : Row), r ∈ metadata →
        Row.get? r "date_original" = none →
        buildRecord today tbl maxN metadata = none)
    ∧ (∀ (metadata : List Row) (r : Row), r ∈ metadata.drop 1 →
        Row.get? r "ark" = none →
        buildRecord today tbl maxN metadata = none)
    ∧ (∀ (r0 : Row) (rest : List Row),
        (Row.get? r0 "digital_collection").isSome →
        (Row.get? r0 "title").isSome →
        (Row.get? r0 "ark").isSome →
        (Row.get? r0 "description").isSome →
        (∀ r ∈ r0 :: rest, (Row.get? r "date_original").isSome) →
        (∀ r ∈ rest, (Row.get? r "ark").isSome) →
        ((∀ r ∈ r0 :: rest, (Row.get? r "disclaimer").isSome)
          ∨ Row.get? r0 "disclaimer" = none) →
        getTerms (r0 :: rest) ["language"] ≠ [] →
        (buildRecord today tbl maxN (r0 :: rest)).isSome) := by
  refine ⟨?_, ?_, ?_, ?_, ?_, ?_, ?_, ?_, ?_⟩
  · rw [← Option.not_isSome_iff_eq_none]
    intro hs
    obtain ⟨_, ⟨r0, hr0, _⟩, _⟩ := (isSome_buildRecord_iff today tbl maxN []).mp hs
    simp at hr0
  · intro r0 rest h
    rw [← Option.not_isSome_iff_eq_none]
    intro hs
    obtain ⟨_, ⟨r0', hr0', hdc, _⟩, _⟩ := (isSome_buildRecord_iff today tbl maxN _).mp hs
    rw [List.head?_cons, Option.some.injEq] at hr0'
    subst hr0'
    rw [h] at hdc
    simp at hdc
  · intro r0 rest h
    rw [← Option.not_isSome_iff_eq_none]
    intro hs
    obtain ⟨_, ⟨r0', hr0', _, hti, _⟩, _⟩ := (isSome_buildRecord_iff today tbl maxN _).mp hs
    rw [List.head?_cons, Option.some.injEq] at hr0'
    subst hr0'
    rw [h] at hti
    simp at hti
  · intro r0 rest h
    rw [← Option.not_isSome_iff_eq_none]
    intro hs
    obtain ⟨_, ⟨r0', hr0', _, _, har⟩, _⟩ := (isSome_buildRecord_iff today tbl maxN _).mp hs
    rw [List.head?_cons, Option.some.injEq] at hr0'
    subst hr0'
    rw [h] at har
    simp at har
  · intro r0 rest h
    rw [← Option.not_isSome_iff_eq_none]
    intro hs
    obtain ⟨_, ⟨r0', hr0', _⟩, _, hcd, _⟩ := (isSome_buildRecord_iff today tbl maxN _).mp hs
    rw [List.head?_cons, Option.some.injEq] at hr0'
    subst hr0'
    rw [getCollectionDescriptions_eq_none_of _ _ h] at hcd
    simp at hcd
  · intro metadata h
    rw [← Option.not_isSome_iff_eq_none]
    intro hs
    obtain ⟨_, _, _, _, hlang, _⟩ := (isSome_buildRecord_iff today tbl maxN _).mp hs
    exact hlang h
  · intro metadata r hr h
    rw [← Option.not_isSome_iff_eq_none]
    intro hs
    obtain ⟨_, _, hyc, _⟩ := (isSome_buildRecord_iff today tbl maxN _).mp hs
    rw [getYearCells_eq_none_of metadata r hr h] at hyc
    simp at hyc
  · intro metadata r hr h
    rw [← Option.not_isSome_iff_eq_none]
    intro hs
    obtain ⟨_, _, _, _, _, _, hca⟩ := (isSome_buildRecord_iff today tbl maxN _).mp hs
    rw [countArks_eq_none_of _ r hr h] at hca
    simp at hca
  · intro r0 rest hdc hti har hdesc hdo harks hdisc hlang
    refine (isSome_buildRecord_iff today tbl maxN _).mpr
      ⟨getDisclaimer_isSome_of r0 rest hdisc,
        ⟨r0, List.head?_cons, hdc, hti, har⟩,
        getYearCells_isSome_of _ hdo,
        getCollectionDescriptions_isSome_of r0 rest hdesc hti,
        hlang,
        getTitle_isSome_of r0 rest hti,
        ?_⟩
    simpa using countArks_isSome_of rest harks

/-- Witness for C1 at a concrete input: a complete one-row collection
builds successfully. -/
theorem buildRecord_failure_conditions_witness :
    (buildRecord "240101" [] 5
      [[("title", "T"), ("digital_collection", "D"), ("ark", "a1"),
        ("description", "d"), ("date_original", "1950"), ("language", "eng"),
        ("disclaimer", "")]]).isSome :=
  (buildRecord_failure_conditions "240101" [] 5).2.2.2.2.2.2.2.2
    [("title", "T"), ("digital_collection", "D"), ("ark", "a1"),
      ("description", "d"), ("date_original", "1950"), ("language", "eng"),
      ("disclaimer", "")] []
    (by decide) (by decide) (by decide) (by decide) (by decide) (by decide)
    (Or.inl (by decide)) (by decide)

/-! ### Counting fields by tag in the built record -/

theorem countTag_nil (t : String) : countTag t [] = 0 := rfl

theorem countTag_append (t : String) (l1 l2 : List Field) :
    countTag t (l1 ++ l2) = countTag t l1 + countTag t l2 := by
  simp [countTag, List.filter_append]

theorem countTag_cons (t : String) (f : Field) (l : List Field) :
    countTag t (f :: l) = (if f.tag = t then 1 else 0) + countTag t l := by
  by_cases h : f.tag = t
  · simp only [countTag, List.filter_cons, h]
    simp [Nat.add_comm]
  · simp [countTag, h]

theorem countTag_singleton (t : String) (f : Field) :
    countTag t [f] = if f.tag = t then 1 else 0 := by
  rw [countTag_cons]
  rfl

theorem countTag_ite (t : String) (c : Prop) [Decidable c] (l1 l2 : List Field) :
    countTag t (if c then l1 else l2) = if c then countTag t l1 else countTag t l2 := by
  split <;> rfl

theorem countTag_addTerms (t tag i1 i2 : String) (terms : List String)
    (extra : List (String × String)) :
    countTag t (addTerms tag i1 i2 terms extra) =
      if tag = t then (terms.filter (· ≠ "")).length else 0 := by
  induction terms with
  | nil => simp [addTerms, countTag]
  | cons x xs ih =>
    simp only [addTerms, List.flatMap_cons] at ih ⊢
    rw [countTag_append, ih]
    by_cases hx : x ≠ ""
    · by_cases htt : tag = t
      · simp [hx, htt, countTag, Field.tag]
        omega
      · simp [hx, htt, countTag, Field.tag]
    · by_cases htt : tag = t
      · simp [hx, htt, countTag]
      · simp [hx, htt, countTag]

theorem countTag_addTermsMultipleVocabularies_ne (t tag fi fb : String)
    (termsUris : List (String × String)) (h : ¬ tag = t) :
    countTag t (addTermsMultipleVocabularies tag termsUris fi fb) = 0 := by
  induction termsUris with
  | nil => simp [addTermsMultipleVocabularies, countTag]
  | cons tu rest ih =>
    simp only [addTermsMultipleVocabularies, List.flatMap_cons] at ih ⊢
    rw [countTag_append, ih]
    by_cases h1 : pyStrip tu.1 ≠ ""
    · by_cases h2 : strContains tu.2 "id.loc.gov"
      · simp [h1, h2, countTag, Field.tag, h]
      · by_cases h3 : strContains tu.2 "id.worldcat.org/fast"
        · simp [h1, h2, h3, countTag, Field.tag, h]
        · by_cases h4 : tu.2 = ""
          · have hc1 : strContains "" "id.loc.gov" = false := by decide
            have hc2 : strContains "" "id.worldcat.org/fast" = false := by decide
            simp [h1, h2, h3, h4, hc1, hc2, countTag, Field.tag, h]
          · simp [h1, h2, h3, h4, countTag, Field.tag, h]
    · simp [h1, countTag]

theorem countTag_addTermsMultipleVocabularies_le (t tag fi fb : String)
    (termsUris : List (String × String)) :
    countTag t (addTermsMultipleVocabularies tag termsUris fi fb) ≤ termsUris.length := by
  induction termsUris with
  | nil => simp [addTermsMultipleVocabularies, countTag]
  | cons tu rest ih =>
    simp only [addTermsMultipleVocabularies, List.flatMap_cons] at ih ⊢
    rw [countTag_append]
    have hhead : countTag t
        (if pyStrip tu.1 ≠ "" then
          if strContains tu.2 "id.loc.gov" = true then
            [Field.general tag fi "0" [("a", tu.1)]]
          else if strContains tu.2 "id.worldcat.org/fast" = true then
            [Field.general tag fi "7" [("a", tu.1), ("2", "fast")]]
          else if tu.2 = "" then
            [Field.general tag fi "7" [("a", tu.1), ("2", "local")]]
          else [Field.general tag fi fb [("a", tu.1)]]
        else []) ≤ 1 := by
      split
      · split
        · rw [countTag_singleton]; split <;> omega
        · split
          · rw [countTag_singleton]; split <;> omega
          · split
            · rw [countTag_singleton]; split <;> omega
            · rw [countTag_singleton]; split <;> omega
      · simp [countTag]
    simp only [List.length_cons]
    omega

theorem countTag_map_constTag (t tag i1 i2 : String) {γ : Type}
    (g : γ → List (String × String)) (l : List γ) :
    countTag t (l.map (fun c => Field.general tag i1 i2 (g c))) =
      if tag = t then l.length else 0 := by
  induction l with
  | nil => simp [countTag]
  | cons x xs ih =>
    simp only [List.map_cons]
    rw [countTag_cons, ih]
    by_cases h : tag = t
    · simp [Field.tag, h]
      omega
    · simp [Field.tag, h]

theorem countTag_addGeographicAreaCodes_ne (t : String)
    (tbl : List (String × String)) (geoTerms : List String) (h : ¬ "043" = t) :
    countTag t (addGeographicAreaCodes tbl geoTerms) = 0 := by
  have hgen : ∀ codes : List String,
      countTag t (if codes ≠ [] then
        [Field.general "043" " " " " (codes.map (fun c => ("a", c)))] else []) = 0 := by
    intro codes
    split
    · simp [countTag, Field.tag, h]
    · simp [countTag]
  exact hgen _

theorem countTag_addPreferredCitation (t : String) (metadata : List Row)
    (maxN : Nat) (dc : String) (h : ¬ "524" = t) :
    countTag t (addPreferredCitation metadata maxN dc) = 0 := by
  unfold addPreferredCitation
  simp [countTag, Field.tag, h]

theorem countTag_addFindingAidLinks_ne (t : String) (metadata : List Row)
    (maxN : Nat) (h : ¬ "856" = t) :
    countTag t (addFindingAidLinks metadata maxN) = 0 := by
  unfold addFindingAidLinks
  rw [countTag_map_constTag]
  simp [h]

theorem generate008_snd (today : String) (langs : List String)
    (d8 : String × List Field) (h : generate008 today langs = some d8) :
    d8.2 = if langs.length > 1 then
      [Field.general "041" " " " " (langs.map (fun l => ("a", l)))] else [] := by
  unfold generate008 at h
  simp only [bind, Option.bind_eq_some, pure, Option.some.injEq] at h
  obtain ⟨l0, hl0, h⟩ := h
  rw [← h]

/-- C5 (amended): the record builder emits at most `max` fields per
truncated repeatable type — personal/corporate name subjects (600, 610),
topical and geographic subjects (650, 651), personal/corporate added
entries (700, 710 — plus the one fixed institutional 710) — in the
aggregator's frequency order; but the genre field (655) is emitted once
per surviving term with NO truncation, and the original-version field
(534) is emitted once per zipped collection/call-number pair with NO
truncation; the aggregator itself applies no upper bound (its output
length is the number of distinct pieces). -/
theorem buildRecord_per_term_field_caps (today : String)
    (tbl : List (String × String)) (maxN : Nat) (metadata : List Row)
    (fields : List Field)
    (h : buildRecord today tbl maxN metadata = some fields) :
    countTag "600" fields ≤ maxN
    ∧ countTag "610" fields ≤ maxN
    ∧ countTag "650" fields ≤ maxN
    ∧ countTag "651" fields ≤ maxN
    ∧ countTag "700" fields ≤ maxN
    ∧ countTag "710" fields ≤ maxN + 1
    ∧ countTag "655" fields = ((getTerms metadata ["aat_genre"]).filter (· ≠ "")).length
    ∧ countTag "534" fields =
        min (getTerms metadata ["archival_collection"]).length
          (getTerms metadata ["archival_call_number"]).length
    ∧ (∀ cols, (getTerms metadata cols).length =
        (firstSeen (allPieces metadata cols)).length) := by
  unfold buildRecord at h
  simp only [bind, Option.bind_eq_some, pure, Option.some.injEq] at h
  obtain ⟨disc, hdisc, r0, hr0, dc, hdc, years, hyears, bs, hbs, d8, hd8, ts, hts,
    oc, hoc, ct, hct, ca, hca, hfields⟩ := h
  subst hfields
  have h82 := generate008_snd today (getTerms metadata ["language"]) d8 hd8
  rw [h82]
  have htakeS : ∀ (l : List String), (l.take maxN).length ≤ maxN := by
    intro l
    simp [List.length_take]
  have htakeP : ∀ (l : List (String × String)), (l.take maxN).length ≤ maxN := by
    intro l
    simp [List.length_take]
  have hlen : ∀ cols, (getTerms metadata cols).length =
      (firstSeen (allPieces metadata cols)).length := by
    intro cols
    have h1 : (getTerms metadata cols).length = (getTermCounts metadata cols).length := by
      simp [getTerms, sortByCountDesc, List.length_insertionSort]
    have h2 : (getTermCounts metadata cols).length =
        ((getTermCounts metadata cols).map Prod.fst).length := by simp
    rw [h1, h2, map_fst_getTermCounts]
  refine ⟨?_, ?_, ?_, ?_, ?_, ?_, ?_, ?_, hlen⟩
  · have hle := countTag_addTermsMultipleVocabularies_le "600" "600" "1" "4"
      ((getTermsAndUris metadata ["personal_name_subject"]).take maxN)
    simp +decide [countTag_append, countTag_ite, countTag_cons, countTag_singleton,
      countTag_nil, countTag_addTerms, countTag_addTermsMultipleVocabularies_ne,
      countTag_addGeographicAreaCodes_ne, countTag_addPreferredCitation,
      countTag_addFindingAidLinks_ne, countTag_map_constTag, Field.tag]
    exact le_trans hle (htakeP _)
  · have hle := countTag_addTermsMultipleVocabularies_le "610" "610" "2" "4"
      ((getTermsAndUris metadata ["corporate_name_subject"]).take maxN)
    simp +decide [countTag_append, countTag_ite, countTag_cons, countTag_singleton,
      countTag_nil, countTag_addTerms, countTag_addTermsMultipleVocabularies_ne,
      countTag_addGeographicAreaCodes_ne, countTag_addPreferredCitation,
      countTag_addFindingAidLinks_ne, countTag_map_constTag, Field.tag]
    exact le_trans hle (htakeP _)
  · simp +decide [countTag_append, countTag_ite, countTag_cons, countTag_singleton,
      countTag_nil, countTag_addTerms, countTag_addTermsMultipleVocabularies_ne,
      countTag_addGeographicAreaCodes_ne, countTag_addPreferredCitation,
      countTag_addFindingAidLinks_ne, countTag_map_constTag, Field.tag]
    exact le_trans (List.length_filter_le _ _) (htakeS _)
  · simp +decide [countTag_append, countTag_ite, countTag_cons, countTag_singleton,
      countTag_nil, countTag_addTerms, countTag_addTermsMultipleVocabularies_ne,
      countTag_addGeographicAreaCodes_ne, countTag_addPreferredCitation,
      countTag_addFindingAidLinks_ne, countTag_map_constTag, Field.tag]
    exact le_trans (List.length_filter_le _ _) (htakeS _)
  · simp +decide [countTag_append, countTag_ite, countTag_cons, countTag_singleton,
      countTag_nil, countTag_addTerms, countTag_addTermsMultipleVocabularies_ne,
      countTag_addGeographicAreaCodes_ne, countTag_addPreferredCitation,
      countTag_addFindingAidLinks_ne, countTag_map_constTag, Field.tag]
    exact le_trans (List.length_filter_le _ _) (htakeS _)
  · have hb : (List.filter (fun x => !decide (x = ""))
        (List.take maxN (getTerms metadata
          ["corporate_creator", "corporate_contributor"]))).length ≤ maxN :=
      le_trans (List.length_filter_le _ _) (htakeS _)
    simp +decide [countTag_append, countTag_ite, countTag_cons, countTag_singleton,
      countTag_nil, countTag_addTerms, countTag_addTermsMultipleVocabularies_ne,
      countTag_addGeographicAreaCodes_ne, countTag_addPreferredCitation,
      countTag_addFindingAidLinks_ne, countTag_map_constTag, Field.tag]
    omega
  · simp +decide [countTag_append, countTag_ite, countTag_cons, countTag_singleton,
      countTag_nil, countTag_addTerms, countTag_addTermsMultipleVocabularies_ne,
      countTag_addGeographicAreaCodes_ne, countTag_addPreferredCitation,
      countTag_addFindingAidLinks_ne, countTag_map_constTag, Field.tag]
  · simp +decide [countTag_append, countTag_ite, countTag_cons, countTag_singleton,
      countTag_nil, countTag_addTerms, countTag_addTermsMultipleVocabularies_ne,
      countTag_addGeographicAreaCodes_ne, countTag_addPreferredCitation,
      countTag_addFindingAidLinks_ne, countTag_map_constTag, Field.tag,
      List.length_zip]

/-- C5 (counterexample to the claim as stated): `add_genre_forms` does
not truncate `get_genre_forms()` to `max`, so a collection with six
distinct genre terms emits six `655` fields, above the default cap of
five. -/
theorem buildRecord_genre_fields_uncapped :
    (buildRecord "240101" [] 5
      [[("title", "T"), ("digital_collection", "D"), ("ark", "a1"),
        ("description", "d"), ("date_original", ""), ("language", "eng"),
        ("aat_genre", "g1;g2;g3;g4;g5;g6")]]).map (countTag "655") = some 6
    ∧ 5 < 6 := by
  refine ⟨by decide, by decide⟩

/-- Witness for C5 at a concrete input: a complete one-row collection
builds, and its `600` fields are within the cap. -/
theorem buildRecord_per_term_field_caps_witness :
    countTag "600" ((buildRecord "240101" [] 5
      [[("title", "T"), ("digital_collection", "D"), ("ark", "a1"),
        ("description", "d"), ("date_original", ""), ("language", "eng")]]).getD []) ≤ 5 := by
  obtain ⟨fields, hf⟩ := Option.isSome_iff_exists.mp
    (by decide : (buildRecord "240101" [] 5
      [[("title", "T"), ("digital_collection", "D"), ("ark", "a1"),
        ("description", "d"), ("date_original", ""), ("language", "eng")]]).isSome)
  rw [hf]
  exact (buildRecord_per_term_field_caps "240101" [] 5 _ fields hf).1

/-- C10: whenever the aggregated language list has more than one
distinct language, the `041` field is appended while the `008` data is
being computed, before the `008` field itself, making `041` the first
field of the record and `008` the second. -/
theorem field041_before_008 (today : String) (tbl : List (String × String))
    (maxN : Nat) (metadata : List Row) (fields : List Field)
    (l0 l1 : String) (ls : List String)
    (h : buildRecord today tbl maxN metadata = some fields)
    (hl : getTerms metadata ["language"] = l0 :: l1 :: ls) :
    fields.head? = some (Field.general "041" " " " "
      ((l0 :: l1 :: ls).map (fun l => ("a", l))))
    ∧ fields[1]? = some (Field.control "008"
        (today ++ "         iau     o           " ++ l0 ++ " d")) := by
  unfold buildRecord at h
  simp only [bind, Option.bind_eq_some, pure, Option.some.injEq] at h
  obtain ⟨disc, hdisc, r0, hr0, dc, hdc, years, hyears, bs, hbs, d8, hd8, ts, hts,
    oc, hoc, ct, hct, ca, hca, hfields⟩ := h
  subst hfields
  rw [hl] at hd8
  unfold generate008 at hd8
  simp only [bind, List.head?_cons, Option.some_bind, List.length_cons,
    Option.some.injEq] at hd8
  have hgt : (ls.length + 1 + 1 : Nat) > 1 := by omega
  rw [if_pos hgt] at hd8
  have hd8' : d8 = (today ++ "         iau     o           " ++ l0 ++ " d",
      [Field.general "041" " " " " ((l0 :: l1 :: ls).map (fun l => ("a", l)))]) := by
    have := hd8
    simp only [pure, Option.some.injEq] at this
    exact this.symm
  subst hd8'
  simp only [List.append_assoc, List.singleton_append, List.cons_append]
  constructor
  · rfl
  · rfl

/-- Witness for C10 at a concrete input: a one-row collection whose
language cell holds two delimited languages puts the `041` field first. -/
theorem field041_before_008_witness :
    ((buildRecord "240101" [] 5
      [[("title", "T"), ("digital_collection", "D"), ("ark", "a1"),
        ("description", "d"), ("date_original", ""),
        ("language", "eng;spa")]]).getD []).head? =
      some (Field.general "041" " " " " [("a", "eng"), ("a", "spa")]) := by
  obtain ⟨fields, hf⟩ := Option.isSome_iff_exists.mp
    (by decide : (buildRecord "240101" [] 5
      [[("title", "T"), ("digital_collection", "D"), ("ark", "a1"),
        ("description", "d"), ("date_original", ""),
        ("language", "eng;spa")]]).isSome)
  rw [hf]
  exact (field041_before_008 "240101" [] 5 _ fields "eng" "spa" [] hf (by decide)).1

end Marcup
